import Mathlib

/-!
Shallow embedding of `src/main.py` (Minecraft-Name-Finder), the `NameFinder`
class: the legality filter `islegal`, the single-name checker `isavailable`,
the batch checker `isavailable_batch` and the concurrent checker
`isavailable_threaded`.

Network interaction is made explicit: the single checker takes the outcome of
its one `requests.get` call as a parameter (`SingleFetch`), and the batch
checker takes an oracle `env : Nat → Nat → PostOutcome` giving the outcome of
the attempt-th `requests.post` for the k-th chunk, together with a jitter
oracle `jit` standing for `random.uniform(0, 0.5)`. Walltime effects
(`time.sleep`) and issued requests are recorded in an event trace. Python
exceptions that the code lets escape (`requests.RequestException` from an
unguarded call, `response.json()` on an unparseable body, a missing `name`
field in a profile) are modelled with `Except`.

Durations are rationals (ℚ): the Python floats involved (1.0, 0.1, powers of
two, `Retry-After` values, jitter) are used only arithmetically here and every
claim about them is exact at those values. `pylower` embeds Python
`str.lower()`, faithful on the ASCII strings this program deals in.
-/

/-- Model of Python `str.lower()`: lower-case every character
(faithful on ASCII, which is all the legality alphabet admits). -/
def pylower (s : String) : String := String.mk (s.toList.map Char.toLower)

namespace NameFinder

/-- `BATCH_SIZE = 10` (src/main.py line 63). -/
def BATCH_SIZE : Nat := 10

/-- `BATCH_WAIT_TIME = 0.1` (src/main.py line 64). -/
def BATCH_WAIT_TIME : ℚ := 1/10

/-- `LEGAL_CHARS` (src/main.py line 66). -/
def LEGAL_CHARS : String := "abcdefghijklmnopqrstuvwxyz0123456789_"

/-- `AVAIALBLE = 1` (sic, src/main.py line 69). -/
def AVAIALBLE : Int := 1

/-- `UNAVAILABLE = 0` (src/main.py line 70). -/
def UNAVAILABLE : Int := 0

/-- `UNKNOWN = -1` (src/main.py line 71). -/
def UNKNOWN : Int := -1

/-- `ILLEGAL = -2` (src/main.py line 72). -/
def ILLEGAL : Int := -2

/-- `MAX_RETRIES = 5`, local to `isavailable_batch` (src/main.py line 125). -/
def MAX_RETRIES : Nat := 5

/-- `BASE_WAIT = 1.0` seconds, local to `isavailable_batch` (src/main.py line 126). -/
def BASE_WAIT : ℚ := 1

/-- `islegal` (src/main.py lines 92-94):
`all(c in NameFinder.LEGAL_CHARS for c in name.lower()) and 3 <= len(name) <= 16`. -/
def islegal (name : String) : Bool :=
  (pylower name).toList.all (fun c => LEGAL_CHARS.toList.contains c)
    && (3 ≤ name.length && name.length ≤ 16)

/-- Python exceptions the source can let propagate. -/
inductive PyErr where
  | requestException
  | jsonDecodeError
  deriving DecidableEq, Repr

/-- Outcome of the one `requests.get` call `isavailable` makes: either the
call raises `requests.RequestException` (transport failure), or it yields a
response with `status` whose body `response.json()` parses iff `jsonOk`. -/
inductive SingleFetch where
  | transportError
  | resp (status : Nat) (jsonOk : Bool)
  deriving DecidableEq, Repr

/-- `isavailable` (src/main.py lines 96-120). The unguarded `requests.get`
propagates transport failures; for every status other than 429 the debug-log
f-string evaluates `response.json()` before the `match`, so an unparseable
body raises there. Otherwise the status is mapped by the `match` statement. -/
def isavailable (name : String) (fetch : SingleFetch) : Except PyErr Int :=
  if !islegal name then Except.ok ILLEGAL
  else
    match fetch with
    | SingleFetch.transportError => Except.error PyErr.requestException
    | SingleFetch.resp status jsonOk =>
      if status != 429 && !jsonOk then Except.error PyErr.jsonDecodeError
      else
        match status with
        | 200 => Except.ok UNAVAILABLE
        | 404 => Except.ok AVAIALBLE
        | 429 => Except.ok UNKNOWN
        | 402 => Except.ok AVAIALBLE
        | _ => Except.ok UNKNOWN

/-- Outcome of one `requests.post` in the batch retry loop: the call raises
(`exn`), or yields a response with `status`, an optional parsed `Retry-After`
header value, and `body` = the list of profile `name` fields when `r.json()`
parses to a list of profiles each carrying a `name` key (`none` otherwise). -/
inductive PostOutcome where
  | exn
  | resp (status : Nat) (retryAfter : Option ℚ) (body : Option (List String))
  deriving DecidableEq, Repr

/-- Observable effects of the batch checker: a grouped POST carrying `body`,
a backoff `time.sleep` inside the retry loop, and the inter-chunk pacing
`time.sleep(cls.BATCH_WAIT_TIME or 0.1)` after a successful chunk. -/
inductive Event where
  | post (body : List String)
  | sleep (duration : ℚ)
  | pace (duration : ℚ)
  deriving DecidableEq, Repr

/-- Whether the final value of the Python variable `r` is a 200 response. -/
def statusIs200 : Option PostOutcome → Bool
  | some (PostOutcome.resp 200 _ _) => true
  | _ => false

/-- The post-loop failure test (src/main.py line 179):
`retries > MAX_RETRIES or r is None or r.status_code != 200`. -/
def notSuccess (retriesF : Nat) (rF : Option PostOutcome) : Bool :=
  decide (MAX_RETRIES < retriesF) || rF.isNone || !statusIs200 rF

/-- The retry loop of `isavailable_batch` (src/main.py lines 144-176),
`while retries <= MAX_RETRIES`, unrolled on a fuel argument. `env attempt`
is the outcome of the attempt-th POST (the attempt index equals the value of
`retries` at that iteration), `jit attempt` the jitter drawn there. Returns
the emitted events, the final value of `retries`, and the final value of the
Python variable `r` (which an `exn` iteration leaves unchanged). Called with
`fuel = MAX_RETRIES + 1`, which the loop structure can never exhaust: fuel 0
coincides with `retries > MAX_RETRIES`, where the loop exits anyway. -/
def retryLoopAux (env : Nat → PostOutcome) (jit : Nat → ℚ) (legalChunk : List String) :
    Nat → Nat → Option PostOutcome → List Event × Nat × Option PostOutcome
  | 0, retries, r => ([], retries, r)
  | fuel + 1, retries, r =>
    if MAX_RETRIES < retries then ([], retries, r)
    else
      match env retries with
      | PostOutcome.exn =>
        let wait := BASE_WAIT * 2 ^ retries + jit retries
        let rest := retryLoopAux env jit legalChunk fuel (retries + 1) r
        (Event.post legalChunk :: Event.sleep wait :: rest.1, rest.2)
      | PostOutcome.resp status retryAfter body =>
        let r' := some (PostOutcome.resp status retryAfter body)
        if status = 200 then ([Event.post legalChunk], retries, r')
        else if status = 429 then
          let wait := match retryAfter with
            | some w => w
            | none => BASE_WAIT * 2 ^ retries + jit retries
          let rest := retryLoopAux env jit legalChunk fuel (retries + 1) r'
          (Event.post legalChunk :: Event.sleep wait :: rest.1, rest.2)
        else ([Event.post legalChunk], retries, r')

/-- The retry loop entered as the source does: `retries = 0`, `r = None`. -/
def retryLoop (env : Nat → PostOutcome) (jit : Nat → ℚ) (legalChunk : List String) :
    List Event × Nat × Option PostOutcome :=
  retryLoopAux env jit legalChunk (MAX_RETRIES + 1) 0 none

/-- The chunk's initial legality scan (src/main.py lines 135-138):
`for j, n in enumerate(chunk, start=i): if not islegal(n): results[j] = ILLEGAL`. -/
def markIllegal (results : List Int) (start : Nat) : List String → List Int
  | [] => results
  | n :: rest =>
    markIllegal (if islegal n then results else results.set start ILLEGAL) (start + 1) rest

/-- The retry-exhaustion scan (src/main.py lines 180-183):
`for j, n in ...: if results[j] != ILLEGAL: results[j] = UNKNOWN`. -/
def markUnknown (results : List Int) (start : Nat) : List String → List Int
  | [] => results
  | _ :: rest =>
    markUnknown (if results.getD start UNKNOWN = ILLEGAL then results
                 else results.set start UNKNOWN) (start + 1) rest

/-- The success-processing scan (src/main.py lines 188-192): skip entries
already `ILLEGAL`, otherwise `UNAVAILABLE if n.lower() in found_profiles
else AVAIALBLE`. -/
def applyProfiles (found : List String) (results : List Int) (start : Nat) :
    List String → List Int
  | [] => results
  | n :: rest =>
    applyProfiles found
      (if (results.getD start UNKNOWN) = ILLEGAL then results
       else results.set start (if found.contains (pylower n) then UNAVAILABLE else AVAIALBLE))
      (start + 1) rest

/-- One iteration of the chunk loop of `isavailable_batch` (src/main.py lines
131-195) for the chunk starting at global index `start`: mark illegal names,
skip the network entirely when no name is legal, otherwise run the retry loop;
on failure mark the rest `UNKNOWN` (no pacing sleep, the source `continue`s),
on success apply the payload (`r.json()` raising when it does not parse) and
then sleep `BATCH_WAIT_TIME or 0.1`. -/
def processChunk (envk : Nat → PostOutcome) (jitk : Nat → ℚ) (start : Nat)
    (chunk : List String) (results : List Int) :
    List Event × Except PyErr (List Int) :=
  let results1 := markIllegal results start chunk
  let legalChunk := chunk.filter (fun n => islegal n)
  if legalChunk.isEmpty then ([], Except.ok results1)
  else
    let t := retryLoop envk jitk legalChunk
    if notSuccess t.2.1 t.2.2 then
      (t.1, Except.ok (markUnknown results1 start chunk))
    else
      match t.2.2 with
      | some (PostOutcome.resp _ _ (some profileNames)) =>
        let found := profileNames.map pylower
        (t.1 ++ [Event.pace (if BATCH_WAIT_TIME != 0 then BATCH_WAIT_TIME else 1/10)],
         Except.ok (applyProfiles found results1 start chunk))
      | _ => (t.1, Except.error PyErr.jsonDecodeError)

/-- The chunk loop `for i in range(0, len(names), cls.BATCH_SIZE)` (src/main.py
line 130), unrolled on a fuel argument; `k` is the chunk ordinal (so `env k`
and `jit k` drive the k-th chunk's retry loop) and `start = k * BATCH_SIZE`.
An escaping exception aborts the whole loop, keeping the events emitted so
far. Called with `fuel = names.length`, which the loop can never exhaust
(every iteration consumes at least one remaining name). -/
def batchLoopAux (env : Nat → Nat → PostOutcome) (jit : Nat → Nat → ℚ) :
    Nat → Nat → Nat → List String → List Int → List Event × Except PyErr (List Int)
  | 0, _, _, _, results => ([], Except.ok results)
  | fuel + 1, k, start, remaining, results =>
    if remaining.isEmpty then ([], Except.ok results)
    else
      let chunk := remaining.take BATCH_SIZE
      let step := processChunk (env k) (jit k) start chunk results
      match step.2 with
      | Except.error e => (step.1, Except.error e)
      | Except.ok results' =>
        let rest := batchLoopAux env jit fuel (k + 1) (start + BATCH_SIZE)
          (remaining.drop BATCH_SIZE) results'
        (step.1 ++ rest.1, rest.2)

/-- `isavailable_batch` (src/main.py lines 122-197): `results` starts as
`[UNKNOWN] * len(names)`, chunks are processed in order, and the final result
list is returned together with the trace of network/sleep events. -/
def isavailable_batch (env : Nat → Nat → PostOutcome) (jit : Nat → Nat → ℚ)
    (names : List String) : List Event × Except PyErr (List Int) :=
  batchLoopAux env jit names.length 0 0 names (List.replicate names.length UNKNOWN)

/-- The result-collection loop of `isavailable_threaded` (src/main.py lines
217-222): futures complete in some order (a sequence of indices into the
input); the linear rescan locates each completed future's original index `i`
(futures are distinct objects, so the first match is exact) and `results[i] =
future.result()` re-raises any exception the task raised. -/
def threadedCollect (f : Nat → SingleFetch) (names : List String) :
    List Nat → List (Option Int) → Except PyErr (List (Option Int))
  | [], results => Except.ok results
  | i :: rest, results =>
    match isavailable (names.getD i "") (f i) with
    | Except.error e => Except.error e
    | Except.ok code => threadedCollect f names rest (results.set i (some code))

/-- `isavailable_threaded` (src/main.py lines 200-224): one `isavailable`
task per name (task `i` sees fetch outcome `f i`), `results = [None] *
len(names)` pre-allocated, slots filled in completion order `order`. -/
def isavailable_threaded (f : Nat → SingleFetch) (order : List Nat)
    (names : List String) : Except PyErr (List (Option Int)) :=
  threadedCollect f names order (List.replicate names.length none)

/-- The grouped requests in a trace. -/
def countPosts (events : List Event) : Nat :=
  (events.filter (fun e => match e with | Event.post _ => true | _ => false)).length

/-- The pacing sleeps in a trace. -/
def countPace (events : List Event) : Nat :=
  (events.filter (fun e => match e with | Event.pace _ => true | _ => false)).length

/-- The chunk (as the source slices it, `names[i:i+BATCH_SIZE]`) that position
`i` of the input falls into. -/
def chunkFor (names : List String) (i : Nat) : List String :=
  (names.drop (i / BATCH_SIZE * BATCH_SIZE)).take BATCH_SIZE

/-- The code a single name `n` of a chunk ends up with, read off the chunk's
retry-loop outcome: `ILLEGAL` for an illegal name; `UNKNOWN` when the loop
never succeeded; otherwise membership of `n.lower()` among the lowered
profile names decides `UNAVAILABLE` vs `AVAIALBLE`. -/
def chunkOutcome (envk : Nat → PostOutcome) (jitk : Nat → ℚ)
    (chunk : List String) (n : String) : Int :=
  if !islegal n then ILLEGAL
  else
    let t := retryLoop envk jitk (chunk.filter (fun m => islegal m))
    if notSuccess t.2.1 t.2.2 then UNKNOWN
    else
      match t.2.2 with
      | some (PostOutcome.resp _ _ (some profileNames)) =>
        if (profileNames.map pylower).contains (pylower n) then UNAVAILABLE else AVAIALBLE
      | _ => UNKNOWN

/-- The code position `i` of a batch run receives, determined by the name at
`i` and its own chunk alone. -/
def nameResult (env : Nat → Nat → PostOutcome) (jit : Nat → Nat → ℚ)
    (names : List String) (i : Nat) : Int :=
  chunkOutcome (env (i / BATCH_SIZE)) (jit (i / BATCH_SIZE)) (chunkFor names i)
    (names.getD i "")

/-- Whether a POST outcome makes the retry loop try again: a transport
failure, or a 429 response. Everything else exits the loop. -/
def retryable : PostOutcome → Bool
  | PostOutcome.exn => true
  | PostOutcome.resp status _ _ => status == 429

/-- Whether a chunk's processing reaches the pacing sleep: some name is
legal, the retry loop ends in success, and the payload parses. -/
def chunkPaced (envk : Nat → PostOutcome) (jitk : Nat → ℚ) (chunk : List String) : Bool :=
  let lc := chunk.filter (fun n => islegal n)
  !lc.isEmpty &&
    (let t := retryLoop envk jitk lc
     !notSuccess t.2.1 t.2.2 &&
       (match t.2.2 with
        | some (PostOutcome.resp _ _ (some _)) => true
        | _ => false))

end NameFinder

/-! ## List bookkeeping helpers -/

namespace NameFinder

theorem getD_set_ne (l : List Int) (i j : Nat) (a d : Int) (h : i ≠ j) :
    (l.set i a).getD j d = l.getD j d := by
  rw [List.getD_eq_getElem?_getD, List.getD_eq_getElem?_getD, List.getElem?_set_ne h]

theorem getElem?_of_lt (l : List Int) (j : Nat) (d : Int) (h : j < l.length) :
    l[j]? = some (l.getD j d) := by
  rw [List.getElem?_eq_getElem h, List.getD_eq_getElem?_getD, List.getElem?_eq_getElem h]
  rfl

/-! ## The legality alphabet -/

theorem legalChars_toNat :
    LEGAL_CHARS.toList.map Char.toNat =
      [97, 98, 99, 100, 101, 102, 103, 104, 105, 106, 107, 108, 109, 110, 111, 112,
       113, 114, 115, 116, 117, 118, 119, 120, 121, 122,
       48, 49, 50, 51, 52, 53, 54, 55, 56, 57, 95] := by decide

theorem mem_LEGAL_CHARS_iff (c : Char) :
    c ∈ LEGAL_CHARS.toList ↔
      (('a' ≤ c ∧ c ≤ 'z') ∨ ('0' ≤ c ∧ c ≤ '9') ∨ c = '_') := by
  have hgoal : (('a' ≤ c ∧ c ≤ 'z') ∨ ('0' ≤ c ∧ c ≤ '9') ∨ c = '_') ↔
      ((97 ≤ c.toNat ∧ c.toNat ≤ 122) ∨ (48 ≤ c.toNat ∧ c.toNat ≤ 57) ∨ c.toNat = 95) := by
    constructor
    · rintro (⟨h1, h2⟩ | ⟨h1, h2⟩ | rfl)
      · exact Or.inl ⟨h1, h2⟩
      · exact Or.inr (Or.inl ⟨h1, h2⟩)
      · exact Or.inr (Or.inr rfl)
    · rintro (⟨h1, h2⟩ | ⟨h1, h2⟩ | h)
      · exact Or.inl ⟨h1, h2⟩
      · exact Or.inr (Or.inl ⟨h1, h2⟩)
      · exact Or.inr (Or.inr (Char.eq_of_val_eq (UInt32.toNat.inj h)))
  rw [hgoal]
  constructor
  · intro h
    have h2 : c.toNat ∈ LEGAL_CHARS.toList.map Char.toNat := List.mem_map_of_mem _ h
    rw [legalChars_toNat] at h2
    simp only [List.mem_cons, List.not_mem_nil, or_false] at h2
    omega
  · intro h
    have h2 : c.toNat ∈ LEGAL_CHARS.toList.map Char.toNat := by
      rw [legalChars_toNat]
      simp only [List.mem_cons, List.not_mem_nil, or_false]
      omega
    rcases List.mem_map.mp h2 with ⟨a, ha, hEq⟩
    have : a = c := Char.eq_of_val_eq (UInt32.toNat.inj hEq)
    exact this ▸ ha

theorem islegal_iff_aux (name : String) : islegal name = true ↔
    ((∀ c ∈ (pylower name).toList,
        ('a' ≤ c ∧ c ≤ 'z') ∨ ('0' ≤ c ∧ c ≤ '9') ∨ c = '_')
      ∧ 3 ≤ name.length ∧ name.length ≤ 16) := by
  unfold islegal
  rw [Bool.and_eq_true, Bool.and_eq_true, List.all_eq_true]
  constructor
  · rintro ⟨h1, h2, h3⟩
    refine ⟨fun c hc => ?_, by simpa using h2, by simpa using h3⟩
    have := h1 c hc
    rw [← mem_LEGAL_CHARS_iff]
    exact List.elem_iff.mp this
  · rintro ⟨h1, h2, h3⟩
    refine ⟨fun c hc => ?_, by simpa using h2, by simpa using h3⟩
    exact List.elem_iff.mpr (mem_LEGAL_CHARS_iff c |>.mpr (h1 c hc))

/-! ## The concurrent checker's collection loop -/

theorem threadedCollect_ok (f : Nat → SingleFetch) (names : List String) :
    ∀ (order : List Nat) (acc : List (Option Int)) (out : List (Option Int)),
    threadedCollect f names order acc = Except.ok out →
    out.length = acc.length ∧
    (∀ i, i ∉ order → out[i]? = acc[i]?) ∧
    (∀ i ∈ order, ∃ c, isavailable (names.getD i "") (f i) = Except.ok c ∧
      (i < acc.length → out[i]? = some (some c))) := by
  intro order
  induction order with
  | nil =>
    intro acc out h
    simp only [threadedCollect] at h
    cases h
    exact ⟨rfl, fun i _ => rfl, fun i hi => absurd hi (List.not_mem_nil i)⟩
  | cons i rest ih =>
    intro acc out h
    simp only [threadedCollect] at h
    rcases hav : isavailable (names.getD i "") (f i) with e | c
    · rw [hav] at h; exact absurd h (by simp)
    · rw [hav] at h
      obtain ⟨hlen, hframe, hmem⟩ := ih (acc.set i (some c)) out h
      refine ⟨by simpa using hlen, ?_, ?_⟩
      · intro j hj
        have hji : j ≠ i := fun hEq => hj (hEq ▸ List.mem_cons_self i rest)
        have hjr : j ∉ rest := fun hr => hj (List.mem_cons_of_mem i hr)
        rw [hframe j hjr]
        exact List.getElem?_set_ne (fun hEq => hji hEq.symm)
      · intro j hj
        rcases List.mem_cons.mp hj with rfl | hjr
        · refine ⟨c, hav, fun hlt => ?_⟩
          by_cases hjrest : j ∈ rest
          · obtain ⟨c', hc', hout⟩ := hmem j hjrest
            rw [hav] at hc'
            cases hc'
            exact hout (by simpa using hlt)
          · rw [hframe j hjrest]
            exact List.getElem?_set_eq_of_lt _ hlt
        · obtain ⟨c', hc', hout⟩ := hmem j hjr
          exact ⟨c', hc', fun hlt => hout (by simpa using hlt)⟩

/-! ## The three per-chunk write loops: length, frame and value -/

theorem length_markIllegal (chunk : List String) :
    ∀ (results : List Int) (start : Nat),
    (markIllegal results start chunk).length = results.length := by
  induction chunk with
  | nil => intro results start; rfl
  | cons n rest ih =>
    intro results start
    rw [markIllegal, ih]
    split <;> simp

theorem length_markUnknown (chunk : List String) :
    ∀ (results : List Int) (start : Nat),
    (markUnknown results start chunk).length = results.length := by
  induction chunk with
  | nil => intro results start; rfl
  | cons n rest ih =>
    intro results start
    rw [markUnknown, ih]
    split <;> simp

theorem length_applyProfiles (found : List String) (chunk : List String) :
    ∀ (results : List Int) (start : Nat),
    (applyProfiles found results start chunk).length = results.length := by
  induction chunk with
  | nil => intro results start; rfl
  | cons n rest ih =>
    intro results start
    rw [applyProfiles, ih]
    split <;> simp

theorem getElem?_markIllegal_frame (chunk : List String) :
    ∀ (results : List Int) (start j : Nat),
    (j < start ∨ start + chunk.length ≤ j) →
    (markIllegal results start chunk)[j]? = results[j]? := by
  induction chunk with
  | nil => intro results start j _; rfl
  | cons n rest ih =>
    intro results start j h
    rw [markIllegal, ih _ (start + 1) j (by simp at h; omega)]
    split
    · rfl
    · exact List.getElem?_set_ne (by simp at h; omega)

theorem getElem?_markIllegal (chunk : List String) :
    ∀ (results : List Int) (start p : Nat), p < chunk.length →
    start + chunk.length ≤ results.length →
    (markIllegal results start chunk)[start + p]? =
      (if islegal (chunk.getD p "") then results[start + p]? else some ILLEGAL) := by
  induction chunk with
  | nil => intro results start p hp _; simp at hp
  | cons n rest ih =>
    intro results start p hp hlen
    simp only [List.length_cons] at hlen
    rw [markIllegal]
    have hlenX : (if islegal n = true then results else results.set start ILLEGAL).length
        = results.length := by split <;> simp
    cases p with
    | zero =>
      simp only [Nat.add_zero, List.getD_cons_zero]
      rw [getElem?_markIllegal_frame rest _ (start + 1) start (Or.inl (by omega))]
      split
      · rfl
      · exact List.getElem?_set_eq_of_lt _ (by omega)
    | succ p' =>
      have hstep : start + (p' + 1) = (start + 1) + p' := by omega
      rw [hstep, ih _ (start + 1) p' (by exact Nat.lt_of_succ_lt_succ hp) (by rw [hlenX]; omega)]
      simp only [List.getD_cons_succ]
      have hX : (if islegal n = true then results else results.set start ILLEGAL)[start + 1 + p']?
          = results[start + 1 + p']? := by
        split
        · rfl
        · exact List.getElem?_set_ne (by omega)
      rw [hX]

theorem getElem?_markUnknown_frame (chunk : List String) :
    ∀ (results : List Int) (start j : Nat),
    (j < start ∨ start + chunk.length ≤ j) →
    (markUnknown results start chunk)[j]? = results[j]? := by
  induction chunk with
  | nil => intro results start j _; rfl
  | cons n rest ih =>
    intro results start j h
    rw [markUnknown, ih _ (start + 1) j (by simp at h; omega)]
    split
    · rfl
    · exact List.getElem?_set_ne (by simp at h; omega)

theorem getElem?_markUnknown (chunk : List String) :
    ∀ (results : List Int) (start p : Nat), p < chunk.length →
    start + chunk.length ≤ results.length →
    (markUnknown results start chunk)[start + p]? =
      (if results.getD (start + p) UNKNOWN = ILLEGAL then some ILLEGAL else some UNKNOWN) := by
  induction chunk with
  | nil => intro results start p hp _; simp at hp
  | cons n rest ih =>
    intro results start p hp hlen
    simp only [List.length_cons] at hlen
    rw [markUnknown]
    have hlenX : (if results.getD start UNKNOWN = ILLEGAL then results
        else results.set start UNKNOWN).length = results.length := by split <;> simp
    cases p with
    | zero =>
      simp only [Nat.add_zero]
      rw [getElem?_markUnknown_frame rest _ (start + 1) start (Or.inl (by omega))]
      split
      · rename_i hcond
        rw [getElem?_of_lt _ _ UNKNOWN (by omega), hcond]
      · exact List.getElem?_set_eq_of_lt _ (by omega)
    | succ p' =>
      have hstep : start + (p' + 1) = (start + 1) + p' := by omega
      rw [hstep, ih _ (start + 1) p' (by exact Nat.lt_of_succ_lt_succ hp) (by rw [hlenX]; omega)]
      have hXg : (if results.getD start UNKNOWN = ILLEGAL then results
          else results.set start UNKNOWN).getD (start + 1 + p') UNKNOWN
          = results.getD (start + 1 + p') UNKNOWN := by
        split
        · rfl
        · exact getD_set_ne _ _ _ _ _ (by omega)
      rw [hXg]

theorem getElem?_applyProfiles_frame (found : List String) (chunk : List String) :
    ∀ (results : List Int) (start j : Nat),
    (j < start ∨ start + chunk.length ≤ j) →
    (applyProfiles found results start chunk)[j]? = results[j]? := by
  induction chunk with
  | nil => intro results start j _; rfl
  | cons n rest ih =>
    intro results start j h
    rw [applyProfiles, ih _ (start + 1) j (by simp at h; omega)]
    split
    · rfl
    · exact List.getElem?_set_ne (by simp at h; omega)

theorem getElem?_applyProfiles (found : List String) (chunk : List String) :
    ∀ (results : List Int) (start p : Nat), p < chunk.length →
    start + chunk.length ≤ results.length →
    (applyProfiles found results start chunk)[start + p]? =
      (if results.getD (start + p) UNKNOWN = ILLEGAL then some ILLEGAL
       else some (if found.contains (pylower (chunk.getD p "")) then UNAVAILABLE
         else AVAIALBLE)) := by
  induction chunk with
  | nil => intro results start p hp _; simp at hp
  | cons n rest ih =>
    intro results start p hp hlen
    simp only [List.length_cons] at hlen
    rw [applyProfiles]
    have hlenX : (if results.getD start UNKNOWN = ILLEGAL then results
        else results.set start
          (if found.contains (pylower n) then UNAVAILABLE else AVAIALBLE)).length
        = results.length := by split <;> simp
    cases p with
    | zero =>
      simp only [Nat.add_zero, List.getD_cons_zero]
      rw [getElem?_applyProfiles_frame found rest _ (start + 1) start (Or.inl (by omega))]
      split
      · rename_i hcond
        rw [getElem?_of_lt _ _ UNKNOWN (by omega), hcond]
      · exact List.getElem?_set_eq_of_lt _ (by omega)
    | succ p' =>
      have hstep : start + (p' + 1) = (start + 1) + p' := by omega
      rw [hstep, ih _ (start + 1) p' (by exact Nat.lt_of_succ_lt_succ hp) (by rw [hlenX]; omega)]
      simp only [List.getD_cons_succ]
      have hXg : (if results.getD start UNKNOWN = ILLEGAL then results
          else results.set start
            (if found.contains (pylower n) then UNAVAILABLE else AVAIALBLE)).getD
            (start + 1 + p') UNKNOWN
          = results.getD (start + 1 + p') UNKNOWN := by
        split
        · rfl
        · exact getD_set_ne _ _ _ _ _ (by omega)
      rw [hXg]

end NameFinder

/-! ## The shape of a chunk's processing -/

namespace NameFinder

theorem pace_duration :
    (if BATCH_WAIT_TIME != 0 then BATCH_WAIT_TIME else 1/10) = (1/10 : ℚ) := by
  have h : (BATCH_WAIT_TIME != 0) = true := by
    simp only [bne_iff_ne, ne_eq, BATCH_WAIT_TIME]
    norm_num
  simp [h, BATCH_WAIT_TIME]

theorem statusIs200_shape (rF : Option PostOutcome) (h : statusIs200 rF = true) :
    ∃ ra body, rF = some (PostOutcome.resp 200 ra body) := by
  unfold statusIs200 at h
  split at h
  · rename_i ra body
    exact ⟨ra, body, rfl⟩
  · exact absurd h (by simp)

theorem notSuccess_false (retriesF : Nat) (rF : Option PostOutcome)
    (h : notSuccess retriesF rF = false) :
    retriesF ≤ MAX_RETRIES ∧ ∃ ra body, rF = some (PostOutcome.resp 200 ra body) := by
  unfold notSuccess at h
  simp only [Bool.or_eq_false_iff] at h
  obtain ⟨⟨h1, _⟩, h3⟩ := h
  refine ⟨Nat.not_lt.mp (of_decide_eq_false h1), ?_⟩
  exact statusIs200_shape rF (by simpa using h3)

theorem processChunk_eq_empty (envk : Nat → PostOutcome) (jitk : Nat → ℚ)
    (start : Nat) (chunk : List String) (results : List Int)
    (hemp : (chunk.filter (fun n => islegal n)).isEmpty = true) :
    processChunk envk jitk start chunk results
      = ([], Except.ok (markIllegal results start chunk)) := by
  simp [processChunk, hemp]

theorem processChunk_eq_failure (envk : Nat → PostOutcome) (jitk : Nat → ℚ)
    (start : Nat) (chunk : List String) (results : List Int)
    (hemp : (chunk.filter (fun n => islegal n)).isEmpty = false)
    (hns : notSuccess (retryLoop envk jitk (chunk.filter (fun n => islegal n))).2.1
      (retryLoop envk jitk (chunk.filter (fun n => islegal n))).2.2 = true) :
    processChunk envk jitk start chunk results
      = ((retryLoop envk jitk (chunk.filter (fun n => islegal n))).1,
         Except.ok (markUnknown (markIllegal results start chunk) start chunk)) := by
  simp [processChunk, hemp, hns]

theorem processChunk_eq_success (envk : Nat → PostOutcome) (jitk : Nat → ℚ)
    (start : Nat) (chunk : List String) (results : List Int)
    (s : Nat) (ra : Option ℚ) (ps : List String)
    (hemp : (chunk.filter (fun n => islegal n)).isEmpty = false)
    (hns : notSuccess (retryLoop envk jitk (chunk.filter (fun n => islegal n))).2.1
      (retryLoop envk jitk (chunk.filter (fun n => islegal n))).2.2 = false)
    (hr : (retryLoop envk jitk (chunk.filter (fun n => islegal n))).2.2
      = some (PostOutcome.resp s ra (some ps))) :
    processChunk envk jitk start chunk results
      = ((retryLoop envk jitk (chunk.filter (fun n => islegal n))).1
           ++ [Event.pace (1/10)],
         Except.ok (applyProfiles (ps.map pylower) (markIllegal results start chunk)
           start chunk)) := by
  have hns' : notSuccess (retryLoop envk jitk (chunk.filter (fun n => islegal n))).2.1
      (some (PostOutcome.resp s ra (some ps))) = false := by
    rw [← hr]; exact hns
  simp only [processChunk, hemp, hns', hr, Bool.false_eq_true, if_false, if_true]
  rw [pace_duration]

end NameFinder

/-! ## Counting events of the retry loop -/

namespace NameFinder

theorem countPosts_nil : countPosts [] = 0 := rfl

theorem countPosts_cons_post (b : List String) (es : List Event) :
    countPosts (Event.post b :: es) = countPosts es + 1 := by
  simp [countPosts, List.filter_cons]

theorem countPosts_cons_sleep (d : ℚ) (es : List Event) :
    countPosts (Event.sleep d :: es) = countPosts es := by
  simp [countPosts, List.filter_cons]

theorem countPosts_cons_pace (d : ℚ) (es : List Event) :
    countPosts (Event.pace d :: es) = countPosts es := by
  simp [countPosts, List.filter_cons]

theorem countPosts_append (a b : List Event) :
    countPosts (a ++ b) = countPosts a + countPosts b := by
  simp [countPosts, List.filter_append]

theorem countPace_nil : countPace [] = 0 := rfl

theorem countPace_cons_post (b : List String) (es : List Event) :
    countPace (Event.post b :: es) = countPace es := by
  simp [countPace, List.filter_cons]

theorem countPace_cons_sleep (d : ℚ) (es : List Event) :
    countPace (Event.sleep d :: es) = countPace es := by
  simp [countPace, List.filter_cons]

theorem countPace_cons_pace (d : ℚ) (es : List Event) :
    countPace (Event.pace d :: es) = countPace es + 1 := by
  simp [countPace, List.filter_cons]

theorem countPace_append (a b : List Event) :
    countPace (a ++ b) = countPace a + countPace b := by
  simp [countPace, List.filter_append]

theorem countPosts_retryLoopAux (env : Nat → PostOutcome) (jit : Nat → ℚ)
    (lc : List String) : ∀ (fuel retries : Nat) (r : Option PostOutcome),
    countPosts (retryLoopAux env jit lc fuel retries r).1 ≤ fuel := by
  intro fuel
  induction fuel with
  | zero => intro retries r; simp [retryLoopAux, countPosts_nil]
  | succ f ih =>
    intro retries r
    rw [retryLoopAux]
    by_cases hret : MAX_RETRIES < retries
    · simp [hret, countPosts_nil]
    · rw [if_neg hret]
      rcases henv : env retries with _ | ⟨s, ra, b⟩
      · simp only [countPosts_cons_post, countPosts_cons_sleep]
        exact Nat.succ_le_succ (ih (retries + 1) r)
      · dsimp only
        by_cases h200 : s = 200
        · subst h200
          simp [countPosts_cons_post, countPosts_nil]
        · rw [if_neg h200]
          by_cases h429 : s = 429
          · subst h429
            rw [if_pos rfl]
            simp only [countPosts_cons_post, countPosts_cons_sleep]
            exact Nat.succ_le_succ (ih (retries + 1) _)
          · rw [if_neg h429]
            simp [countPosts_cons_post, countPosts_nil]

theorem countPace_retryLoopAux (env : Nat → PostOutcome) (jit : Nat → ℚ)
    (lc : List String) : ∀ (fuel retries : Nat) (r : Option PostOutcome),
    countPace (retryLoopAux env jit lc fuel retries r).1 = 0 := by
  intro fuel
  induction fuel with
  | zero => intro retries r; simp [retryLoopAux, countPace_nil]
  | succ f ih =>
    intro retries r
    rw [retryLoopAux]
    by_cases hret : MAX_RETRIES < retries
    · simp [hret, countPace_nil]
    · rw [if_neg hret]
      rcases henv : env retries with _ | ⟨s, ra, b⟩
      · simp only [countPace_cons_post, countPace_cons_sleep]
        exact ih (retries + 1) r
      · dsimp only
        by_cases h200 : s = 200
        · subst h200
          simp [countPace_cons_post, countPace_nil]
        · rw [if_neg h200]
          by_cases h429 : s = 429
          · subst h429
            rw [if_pos rfl]
            simp only [countPace_cons_post, countPace_cons_sleep]
            exact ih (retries + 1) _
          · rw [if_neg h429]
            simp [countPace_cons_post, countPace_nil]

theorem post_body_retryLoopAux (env : Nat → PostOutcome) (jit : Nat → ℚ)
    (lc : List String) : ∀ (fuel retries : Nat) (r : Option PostOutcome)
    (body : List String),
    Event.post body ∈ (retryLoopAux env jit lc fuel retries r).1 → body = lc := by
  intro fuel
  induction fuel with
  | zero =>
    intro retries r body h
    simp [retryLoopAux] at h
  | succ f ih =>
    intro retries r body h
    rw [retryLoopAux] at h
    by_cases hret : MAX_RETRIES < retries
    · rw [if_pos hret] at h
      simp at h
    · rw [if_neg hret] at h
      rcases henv : env retries with _ | ⟨s, ra, b⟩ <;> rw [henv] at h <;> dsimp only at h
      · rcases List.mem_cons.mp h with hEq | h2
        · cases hEq; rfl
        · rcases List.mem_cons.mp h2 with hEq | h3
          · exact absurd hEq (by simp)
          · exact ih (retries + 1) r body h3
      · by_cases h200 : s = 200
        · subst h200
          simp only [if_pos rfl] at h
          rcases List.mem_cons.mp h with hEq | h2
          · cases hEq; rfl
          · simp at h2
        · rw [if_neg h200] at h
          by_cases h429 : s = 429
          · subst h429
            rw [if_pos rfl] at h
            rcases List.mem_cons.mp h with hEq | h2
            · cases hEq; rfl
            · rcases List.mem_cons.mp h2 with hEq | h3
              · exact absurd hEq (by simp)
              · exact ih (retries + 1) _ body h3
          · rw [if_neg h429] at h
            rcases List.mem_cons.mp h with hEq | h2
            · cases hEq; rfl
            · simp at h2


theorem retryLoopAux_stops (env : Nat → PostOutcome) (jit : Nat → ℚ)
    (lc : List String) : ∀ (j fuel retries : Nat) (r : Option PostOutcome),
    (∀ m, m < j → retryable (env (retries + m)) = true) →
    retryable (env (retries + j)) = false →
    retries + j ≤ MAX_RETRIES →
    j < fuel →
    countPosts (retryLoopAux env jit lc fuel retries r).1 = j + 1 ∧
    (retryLoopAux env jit lc fuel retries r).2.1 = retries + j ∧
    (retryLoopAux env jit lc fuel retries r).2.2 = some (env (retries + j)) := by
  intro j
  induction j with
  | zero =>
    intro fuel retries r hpre hstop hle hfuel
    obtain ⟨f, rfl⟩ : ∃ f, fuel = f + 1 := ⟨fuel - 1, by omega⟩
    simp only [Nat.add_zero] at hstop hle ⊢
    rw [retryLoopAux, if_neg (by omega)]
    rcases henv : env retries with _ | ⟨s, ra, b⟩
    · rw [henv] at hstop
      simp [retryable] at hstop
    · rw [henv] at hstop
      have hs : ¬s = 429 := by simpa [retryable] using hstop
      dsimp only
      by_cases h200 : s = 200
      · subst h200
        rw [if_pos rfl]
        exact ⟨by simp [countPosts_cons_post, countPosts_nil], rfl, rfl⟩
      · rw [if_neg h200, if_neg hs]
        exact ⟨by simp [countPosts_cons_post, countPosts_nil], rfl, rfl⟩
  | succ j ih =>
    intro fuel retries r hpre hstop hle hfuel
    obtain ⟨f, rfl⟩ : ∃ f, fuel = f + 1 := ⟨fuel - 1, by omega⟩
    rw [retryLoopAux, if_neg (by omega)]
    have hr0 : retryable (env retries) = true := by
      have := hpre 0 (by omega)
      simpa using this
    have hpre' : ∀ m, m < j → retryable (env (retries + 1 + m)) = true := by
      intro m hm
      have := hpre (m + 1) (by omega)
      rwa [show retries + (m + 1) = retries + 1 + m by omega] at this
    have hstop' : retryable (env (retries + 1 + j)) = false := by
      rwa [show retries + 1 + j = retries + (j + 1) by omega]
    have hidx : retries + 1 + j = retries + (j + 1) := by omega
    rcases henv : env retries with _ | ⟨s, ra, b⟩
    · obtain ⟨ih1, ih2, ih3⟩ := ih f (retries + 1) r hpre' hstop' (by omega) (by omega)
      refine ⟨?_, ?_, ?_⟩
      · simp only [countPosts_cons_post, countPosts_cons_sleep, ih1]
      · simpa [hidx] using ih2
      · rw [show retries + (j + 1) = retries + 1 + j by omega, ← ih3]
    · have hs : s = 429 := by
        rw [henv] at hr0
        simpa [retryable] using hr0
      subst hs
      dsimp only
      rw [if_neg (by norm_num), if_pos rfl]
      obtain ⟨ih1, ih2, ih3⟩ := ih f (retries + 1)
        (some (PostOutcome.resp 429 ra b)) hpre' hstop' (by omega) (by omega)
      refine ⟨?_, ?_, ?_⟩
      · simp only [countPosts_cons_post, countPosts_cons_sleep, ih1]
      · simpa [hidx] using ih2
      · rw [show retries + (j + 1) = retries + 1 + j by omega, ← ih3]


end NameFinder

/-! ## Per-chunk characterization -/

namespace NameFinder

theorem getD_mem (l : List String) (p : Nat) (hp : p < l.length) :
    l.getD p "" ∈ l := by
  rw [List.getD_eq_getElem?_getD, List.getElem?_eq_getElem hp]
  exact List.getElem_mem hp

theorem chunkOutcome_illegal (envk : Nat → PostOutcome) (jitk : Nat → ℚ)
    (chunk : List String) (n : String) (h : islegal n = false) :
    chunkOutcome envk jitk chunk n = ILLEGAL := by
  simp [chunkOutcome, h]

theorem chunkOutcome_failure (envk : Nat → PostOutcome) (jitk : Nat → ℚ)
    (chunk : List String) (n : String) (h : islegal n = true)
    (hns : notSuccess (retryLoop envk jitk (chunk.filter (fun m => islegal m))).2.1
      (retryLoop envk jitk (chunk.filter (fun m => islegal m))).2.2 = true) :
    chunkOutcome envk jitk chunk n = UNKNOWN := by
  simp [chunkOutcome, h, hns]

theorem chunkOutcome_success (envk : Nat → PostOutcome) (jitk : Nat → ℚ)
    (chunk : List String) (n : String) (s : Nat) (ra : Option ℚ) (ps : List String)
    (h : islegal n = true)
    (hns : notSuccess (retryLoop envk jitk (chunk.filter (fun m => islegal m))).2.1
      (retryLoop envk jitk (chunk.filter (fun m => islegal m))).2.2 = false)
    (hr : (retryLoop envk jitk (chunk.filter (fun m => islegal m))).2.2
      = some (PostOutcome.resp s ra (some ps))) :
    chunkOutcome envk jitk chunk n =
      (if (ps.map pylower).contains (pylower n) then UNAVAILABLE else AVAIALBLE) := by
  have hns' : notSuccess (retryLoop envk jitk (chunk.filter (fun m => islegal m))).2.1
      (some (PostOutcome.resp s ra (some ps))) = false := by
    rw [← hr]; exact hns
  simp [chunkOutcome, h, hns', hr]

theorem processChunk_nojson (envk : Nat → PostOutcome) (jitk : Nat → ℚ)
    (start : Nat) (chunk : List String) (results : List Int)
    (s : Nat) (ra : Option ℚ)
    (hemp : (chunk.filter (fun n => islegal n)).isEmpty = false)
    (hns : notSuccess (retryLoop envk jitk (chunk.filter (fun n => islegal n))).2.1
      (retryLoop envk jitk (chunk.filter (fun n => islegal n))).2.2 = false)
    (hr : (retryLoop envk jitk (chunk.filter (fun n => islegal n))).2.2
      = some (PostOutcome.resp s ra none)) :
    processChunk envk jitk start chunk results
      = ((retryLoop envk jitk (chunk.filter (fun n => islegal n))).1,
         Except.error PyErr.jsonDecodeError) := by
  have hns' : notSuccess (retryLoop envk jitk (chunk.filter (fun n => islegal n))).2.1
      (some (PostOutcome.resp s ra none)) = false := by
    rw [← hr]; exact hns
  simp only [processChunk, hemp, hns', hr, Bool.false_eq_true, if_false, if_true]

theorem processChunk_ok (envk : Nat → PostOutcome) (jitk : Nat → ℚ)
    (start : Nat) (chunk : List String) (results : List Int)
    (events : List Event) (out : List Int)
    (hlen : start + chunk.length ≤ results.length)
    (hres : ∀ p, p < chunk.length → results.getD (start + p) UNKNOWN = UNKNOWN)
    (h : processChunk envk jitk start chunk results = (events, Except.ok out)) :
    out.length = results.length ∧
    (∀ j, j < start ∨ start + chunk.length ≤ j → out[j]? = results[j]?) ∧
    (∀ p, p < chunk.length →
      out[start + p]? = some (chunkOutcome envk jitk chunk (chunk.getD p ""))) := by
  by_cases hemp : (chunk.filter (fun n => islegal n)).isEmpty = true
  · -- every name of the chunk is illegal
    rw [processChunk_eq_empty envk jitk start chunk results hemp] at h
    injection h with h1 h2
    injection h2 with h2
    subst h2
    have hill : ∀ n ∈ chunk, islegal n = false := by
      intro n hn
      have hfil := List.isEmpty_iff.mp hemp
      have := List.filter_eq_nil_iff.mp hfil n hn
      simpa using this
    refine ⟨length_markIllegal chunk results start, getElem?_markIllegal_frame chunk results start, ?_⟩
    intro p hp
    have hleg : islegal (chunk.getD p "") = false := hill _ (getD_mem chunk p hp)
    rw [getElem?_markIllegal chunk results start p hp hlen,
      if_neg (by rw [hleg]; exact Bool.false_ne_true),
      chunkOutcome_illegal envk jitk chunk _ hleg]
  · have hemp' : (chunk.filter (fun n => islegal n)).isEmpty = false := by
      simpa using hemp
    by_cases hns : notSuccess (retryLoop envk jitk (chunk.filter (fun n => islegal n))).2.1
      (retryLoop envk jitk (chunk.filter (fun n => islegal n))).2.2 = true
    · -- the retry loop never succeeded
      rw [processChunk_eq_failure envk jitk start chunk results hemp' hns] at h
      injection h with h1 h2
      injection h2 with h2
      subst h2
      have hlen1 : start + chunk.length ≤ (markIllegal results start chunk).length := by
        rw [length_markIllegal]; exact hlen
      refine ⟨?_, ?_, ?_⟩
      · rw [length_markUnknown, length_markIllegal]
      · intro j hj
        rw [getElem?_markUnknown_frame chunk _ start j hj,
          getElem?_markIllegal_frame chunk results start j hj]
      · intro p hp
        rw [getElem?_markUnknown chunk _ start p hp hlen1]
        have hm : (markIllegal results start chunk).getD (start + p) UNKNOWN
            = (if islegal (chunk.getD p "") then results.getD (start + p) UNKNOWN
               else ILLEGAL) := by
          rw [List.getD_eq_getElem?_getD, getElem?_markIllegal chunk results start p hp hlen]
          split
          · rw [← List.getD_eq_getElem?_getD]
          · rfl
        by_cases hleg : islegal (chunk.getD p "") = true
        · have hval : (markIllegal results start chunk).getD (start + p) UNKNOWN = UNKNOWN := by
            rw [hm, if_pos hleg]
            exact hres p hp
          rw [hval, if_neg (by decide), chunkOutcome_failure envk jitk chunk _ hleg hns]
        · have hleg' : islegal (chunk.getD p "") = false := by simpa using hleg
          have hval : (markIllegal results start chunk).getD (start + p) UNKNOWN = ILLEGAL := by
            rw [hm, if_neg (by rw [hleg']; exact Bool.false_ne_true)]
          rw [hval, if_pos rfl, chunkOutcome_illegal envk jitk chunk _ hleg']
    · -- the retry loop succeeded
      have hns' : notSuccess (retryLoop envk jitk (chunk.filter (fun n => islegal n))).2.1
          (retryLoop envk jitk (chunk.filter (fun n => islegal n))).2.2 = false := by
        simpa using hns
      obtain ⟨hle5, ra, body, hr⟩ := notSuccess_false _ _ hns'
      cases body with
      | none =>
        rw [processChunk_nojson envk jitk start chunk results 200 ra hemp' hns' hr] at h
        injection h with h1 h2
        exact absurd h2 (by simp)
      | some ps =>
        rw [processChunk_eq_success envk jitk start chunk results 200 ra ps hemp' hns' hr] at h
        injection h with h1 h2
        injection h2 with h2
        subst h2
        have hlen1 : start + chunk.length ≤ (markIllegal results start chunk).length := by
          rw [length_markIllegal]; exact hlen
        refine ⟨?_, ?_, ?_⟩
        · rw [length_applyProfiles, length_markIllegal]
        · intro j hj
          rw [getElem?_applyProfiles_frame _ chunk _ start j hj,
            getElem?_markIllegal_frame chunk results start j hj]
        · intro p hp
          rw [getElem?_applyProfiles _ chunk _ start p hp hlen1]
          have hm : (markIllegal results start chunk).getD (start + p) UNKNOWN
              = (if islegal (chunk.getD p "") then results.getD (start + p) UNKNOWN
                 else ILLEGAL) := by
            rw [List.getD_eq_getElem?_getD, getElem?_markIllegal chunk results start p hp hlen]
            split
            · rw [← List.getD_eq_getElem?_getD]
            · rfl
          by_cases hleg : islegal (chunk.getD p "") = true
          · have hval : (markIllegal results start chunk).getD (start + p) UNKNOWN = UNKNOWN := by
              rw [hm, if_pos hleg]
              exact hres p hp
            rw [hval, if_neg (by decide),
              chunkOutcome_success envk jitk chunk _ 200 ra ps hleg hns' hr]
          · have hleg' : islegal (chunk.getD p "") = false := by simpa using hleg
            have hval : (markIllegal results start chunk).getD (start + p) UNKNOWN = ILLEGAL := by
              rw [hm, if_neg (by rw [hleg']; exact Bool.false_ne_true)]
            rw [hval, if_pos rfl, chunkOutcome_illegal envk jitk chunk _ hleg']


end NameFinder

/-! ## The whole batch run -/

namespace NameFinder

theorem getD_take (l : List String) (n p : Nat) (hp : p < n) :
    (l.take n).getD p "" = l.getD p "" := by
  rw [List.getD_eq_getElem?_getD, List.getD_eq_getElem?_getD, List.getElem?_take_of_lt hp]

theorem getD_drop (l : List String) (n q : Nat) :
    (l.drop n).getD q "" = l.getD (n + q) "" := by
  rw [List.getD_eq_getElem?_getD, List.getD_eq_getElem?_getD, List.getElem?_drop]

theorem batchLoopAux_ok (env : Nat → Nat → PostOutcome) (jit : Nat → Nat → ℚ) :
    ∀ (fuel k start : Nat) (remaining : List String) (results : List Int)
      (events : List Event) (out : List Int),
    remaining.length ≤ fuel →
    (remaining = [] ∨ start + remaining.length ≤ results.length) →
    (∀ j, start ≤ j → results.getD j UNKNOWN = UNKNOWN) →
    batchLoopAux env jit fuel k start remaining results = (events, Except.ok out) →
    out.length = results.length ∧
    (∀ j, j < start → out[j]? = results[j]?) ∧
    (∀ p, p < remaining.length →
      out[start + p]? = some (chunkOutcome (env (k + p / BATCH_SIZE)) (jit (k + p / BATCH_SIZE))
        ((remaining.drop (p / BATCH_SIZE * BATCH_SIZE)).take BATCH_SIZE)
        (remaining.getD p ""))) := by
  intro fuel
  induction fuel with
  | zero =>
    intro k start remaining results events out hfuel hstart hinv h
    have hnil : remaining = [] := List.eq_nil_of_length_eq_zero (by omega)
    subst hnil
    simp only [batchLoopAux] at h
    injection h with h1 h2
    injection h2 with h2
    subst h2
    exact ⟨rfl, fun j _ => rfl, fun p hp => absurd hp (by simp)⟩
  | succ f ih =>
    intro k start remaining results events out hfuel hstart hinv h
    by_cases hrem : remaining.isEmpty = true
    · have hnil : remaining = [] := List.isEmpty_iff.mp hrem
      subst hnil
      rw [batchLoopAux, if_pos hrem] at h
      injection h with h1 h2
      injection h2 with h2
      subst h2
      exact ⟨rfl, fun j _ => rfl, fun p hp => absurd hp (by simp)⟩
    · have hne : remaining ≠ [] := fun hEq => hrem (by simp [hEq])
      have hpos : 0 < remaining.length := List.length_pos.mpr hne
      have hstart' : start + remaining.length ≤ results.length := by
        rcases hstart with hEq | hle
        · exact absurd hEq hne
        · exact hle
      rw [batchLoopAux, if_neg hrem] at h
      dsimp only at h
      rcases hres2 : (processChunk (env k) (jit k) start (remaining.take BATCH_SIZE) results).2
        with e | results'
      · rw [hres2] at h
        injection h with h1 h2
        exact absurd h2 (by simp)
      · rw [hres2] at h
        injection h with h1 h2
        have hchlen : (remaining.take BATCH_SIZE).length = min BATCH_SIZE remaining.length :=
          List.length_take BATCH_SIZE remaining
        have hstep' : processChunk (env k) (jit k) start (remaining.take BATCH_SIZE) results
            = ((processChunk (env k) (jit k) start (remaining.take BATCH_SIZE) results).1,
               Except.ok results') := by
          rw [← hres2]
        obtain ⟨clen, cframe, cval⟩ := processChunk_ok (env k) (jit k) start
          (remaining.take BATCH_SIZE) results _ results'
          (by rw [hchlen]; omega)
          (fun p hp => hinv (start + p) (by omega))
          hstep'
        have hrest' : batchLoopAux env jit f (k + 1) (start + BATCH_SIZE)
            (remaining.drop BATCH_SIZE) results'
            = ((batchLoopAux env jit f (k + 1) (start + BATCH_SIZE)
                (remaining.drop BATCH_SIZE) results').1, Except.ok out) := by
          rw [← h2]
        have hdroplen : (remaining.drop BATCH_SIZE).length = remaining.length - BATCH_SIZE :=
          List.length_drop BATCH_SIZE remaining
        obtain ⟨ilen, iframe, ival⟩ := ih (k + 1) (start + BATCH_SIZE)
          (remaining.drop BATCH_SIZE) results' _ out
          (by rw [hdroplen]; simp only [BATCH_SIZE]; omega)
          (by
            by_cases hsmall : remaining.length ≤ BATCH_SIZE
            · left
              rw [← List.length_eq_zero, hdroplen]
              omega
            · right
              rw [hdroplen, clen]
              omega)
          (by
            intro j hj
            have hfr : results'[j]? = results[j]? := cframe j (Or.inr (by rw [hchlen]; omega))
            rw [List.getD_eq_getElem?_getD, hfr, ← List.getD_eq_getElem?_getD]
            exact hinv j (by omega))
          hrest'
        refine ⟨by rw [ilen, clen], ?_, ?_⟩
        · intro j hj
          rw [iframe j (by omega)]
          exact cframe j (Or.inl hj)
        · intro p hp
          by_cases hpc : p < (remaining.take BATCH_SIZE).length
          · -- the position belongs to this chunk
            have hpB : p < BATCH_SIZE := by rw [hchlen] at hpc; omega
            have hdiv : p / BATCH_SIZE = 0 := Nat.div_eq_of_lt hpB
            rw [iframe (start + p) (by omega), cval p hpc, hdiv]
            simp only [Nat.add_zero, Nat.zero_mul, List.drop_zero]
            rw [getD_take remaining BATCH_SIZE p hpB]
          · -- the position belongs to a later chunk
            have hpB : BATCH_SIZE ≤ p := by
              rw [hchlen] at hpc
              omega
            have hchfull : (remaining.take BATCH_SIZE).length = BATCH_SIZE := by
              rw [hchlen]; omega
            have hp10 : 10 ≤ p := by simpa [BATCH_SIZE] using hpB
            have := ival (p - BATCH_SIZE) (by rw [hdroplen]; omega)
            rw [show start + BATCH_SIZE + (p - BATCH_SIZE) = start + p by omega] at this
            rw [this, getD_drop, show BATCH_SIZE + (p - BATCH_SIZE) = p by omega]
            have hk : k + 1 + (p - BATCH_SIZE) / BATCH_SIZE = k + p / BATCH_SIZE := by
              simp only [BATCH_SIZE] at hp10 ⊢
              omega
            have hdd : (remaining.drop BATCH_SIZE).drop ((p - BATCH_SIZE) / BATCH_SIZE * BATCH_SIZE)
                = remaining.drop (p / BATCH_SIZE * BATCH_SIZE) := by
              rw [List.drop_drop]
              congr 1
              simp only [BATCH_SIZE] at hp10 ⊢
              omega
            rw [hk, hdd]


end NameFinder

namespace NameFinder

theorem isavailable_batch_ok (env : Nat → Nat → PostOutcome) (jit : Nat → Nat → ℚ)
    (names : List String) (out : List Int)
    (h : (isavailable_batch env jit names).2 = Except.ok out) :
    out.length = names.length ∧
    ∀ i, i < names.length → out.getD i UNKNOWN = nameResult env jit names i := by
  have h' : batchLoopAux env jit names.length 0 0 names (List.replicate names.length UNKNOWN)
      = ((batchLoopAux env jit names.length 0 0 names
           (List.replicate names.length UNKNOWN)).1, Except.ok out) := by
    rw [← h]
    rfl
  obtain ⟨l, _, val⟩ := batchLoopAux_ok env jit names.length 0 0 names
    (List.replicate names.length UNKNOWN) _ out
    (le_refl _)
    (Or.inr (by simp))
    (by
      intro j _
      rw [List.getD_eq_getElem?_getD, List.getElem?_replicate]
      split <;> rfl)
    h'
  constructor
  · rw [l, List.length_replicate]
  · intro i hi
    have hv := val i hi
    simp only [Nat.zero_add] at hv
    rw [List.getD_eq_getElem?_getD, hv]
    rfl

theorem chunkOutcome_nojson (envk : Nat → PostOutcome) (jitk : Nat → ℚ)
    (chunk : List String) (n : String) (s : Nat) (ra : Option ℚ)
    (h : islegal n = true)
    (hns : notSuccess (retryLoop envk jitk (chunk.filter (fun m => islegal m))).2.1
      (retryLoop envk jitk (chunk.filter (fun m => islegal m))).2.2 = false)
    (hr : (retryLoop envk jitk (chunk.filter (fun m => islegal m))).2.2
      = some (PostOutcome.resp s ra none)) :
    chunkOutcome envk jitk chunk n = UNKNOWN := by
  have hns' : notSuccess (retryLoop envk jitk (chunk.filter (fun m => islegal m))).2.1
      (some (PostOutcome.resp s ra none)) = false := by
    rw [← hr]; exact hns
  simp [chunkOutcome, h, hns', hr]

theorem chunkOutcome_mem (envk : Nat → PostOutcome) (jitk : Nat → ℚ)
    (chunk : List String) (n : String) :
    chunkOutcome envk jitk chunk n = AVAIALBLE ∨ chunkOutcome envk jitk chunk n = UNAVAILABLE ∨
    chunkOutcome envk jitk chunk n = UNKNOWN ∨ chunkOutcome envk jitk chunk n = ILLEGAL := by
  by_cases hleg : islegal n = true
  · by_cases hns : notSuccess (retryLoop envk jitk (chunk.filter (fun m => islegal m))).2.1
        (retryLoop envk jitk (chunk.filter (fun m => islegal m))).2.2 = true
    · rw [chunkOutcome_failure envk jitk chunk n hleg hns]
      right; right; left; rfl
    · have hns' : notSuccess (retryLoop envk jitk (chunk.filter (fun m => islegal m))).2.1
          (retryLoop envk jitk (chunk.filter (fun m => islegal m))).2.2 = false := by
        simpa using hns
      obtain ⟨_, ra, body, hr⟩ := notSuccess_false _ _ hns'
      cases body with
      | none =>
        rw [chunkOutcome_nojson envk jitk chunk n 200 ra hleg hns' hr]
        right; right; left; rfl
      | some ps =>
        rw [chunkOutcome_success envk jitk chunk n 200 ra ps hleg hns' hr]
        split
        · right; left; rfl
        · left; rfl
  · rw [chunkOutcome_illegal envk jitk chunk n (by simpa using hleg)]
    right; right; right; rfl


end NameFinder

/-! ## Trace facts: request bodies, request counts, pacing sleeps -/

namespace NameFinder

theorem post_body_processChunk (envk : Nat → PostOutcome) (jitk : Nat → ℚ)
    (start : Nat) (chunk : List String) (results : List Int) (body : List String)
    (h : Event.post body ∈ (processChunk envk jitk start chunk results).1) :
    body = chunk.filter (fun n => islegal n) := by
  by_cases hemp : (chunk.filter (fun n => islegal n)).isEmpty = true
  · rw [processChunk_eq_empty envk jitk start chunk results hemp] at h
    simp at h
  · have hemp' : (chunk.filter (fun n => islegal n)).isEmpty = false := by simpa using hemp
    by_cases hns : notSuccess (retryLoop envk jitk (chunk.filter (fun n => islegal n))).2.1
        (retryLoop envk jitk (chunk.filter (fun n => islegal n))).2.2 = true
    · rw [processChunk_eq_failure envk jitk start chunk results hemp' hns] at h
      exact post_body_retryLoopAux envk jitk _ _ _ _ body h
    · have hns' : notSuccess (retryLoop envk jitk (chunk.filter (fun n => islegal n))).2.1
          (retryLoop envk jitk (chunk.filter (fun n => islegal n))).2.2 = false := by
        simpa using hns
      obtain ⟨_, ra, b, hr⟩ := notSuccess_false _ _ hns'
      cases b with
      | none =>
        rw [processChunk_nojson envk jitk start chunk results 200 ra hemp' hns' hr] at h
        exact post_body_retryLoopAux envk jitk _ _ _ _ body h
      | some ps =>
        rw [processChunk_eq_success envk jitk start chunk results 200 ra ps hemp' hns' hr] at h
        rcases List.mem_append.mp h with h2 | h2
        · exact post_body_retryLoopAux envk jitk _ _ _ _ body h2
        · simp at h2

theorem post_body_batchLoopAux (env : Nat → Nat → PostOutcome) (jit : Nat → Nat → ℚ) :
    ∀ (fuel k start : Nat) (remaining : List String) (results : List Int) (body : List String),
    Event.post body ∈ (batchLoopAux env jit fuel k start remaining results).1 →
    ∃ chunk : List String, body = chunk.filter (fun n => islegal n) := by
  intro fuel
  induction fuel with
  | zero =>
    intro k start remaining results body h
    simp [batchLoopAux] at h
  | succ f ih =>
    intro k start remaining results body h
    rw [batchLoopAux] at h
    by_cases hrem : remaining.isEmpty = true
    · rw [if_pos hrem] at h
      simp at h
    · rw [if_neg hrem] at h
      dsimp only at h
      rcases hres2 : (processChunk (env k) (jit k) start (remaining.take BATCH_SIZE) results).2
        with e | results'
      · rw [hres2] at h
        exact ⟨remaining.take BATCH_SIZE, post_body_processChunk _ _ _ _ _ body h⟩
      · rw [hres2] at h
        rcases List.mem_append.mp h with h2 | h2
        · exact ⟨remaining.take BATCH_SIZE, post_body_processChunk _ _ _ _ _ body h2⟩
        · exact ih (k + 1) (start + BATCH_SIZE) _ results' body h2

theorem countPosts_processChunk (envk : Nat → PostOutcome) (jitk : Nat → ℚ)
    (start : Nat) (chunk : List String) (results : List Int) :
    countPosts (processChunk envk jitk start chunk results).1 ≤ MAX_RETRIES + 1 := by
  by_cases hemp : (chunk.filter (fun n => islegal n)).isEmpty = true
  · rw [processChunk_eq_empty envk jitk start chunk results hemp]
    simp [countPosts_nil]
  · have hemp' : (chunk.filter (fun n => islegal n)).isEmpty = false := by simpa using hemp
    by_cases hns : notSuccess (retryLoop envk jitk (chunk.filter (fun n => islegal n))).2.1
        (retryLoop envk jitk (chunk.filter (fun n => islegal n))).2.2 = true
    · rw [processChunk_eq_failure envk jitk start chunk results hemp' hns]
      exact countPosts_retryLoopAux envk jitk _ _ _ _
    · have hns' : notSuccess (retryLoop envk jitk (chunk.filter (fun n => islegal n))).2.1
          (retryLoop envk jitk (chunk.filter (fun n => islegal n))).2.2 = false := by
        simpa using hns
      obtain ⟨_, ra, b, hr⟩ := notSuccess_false _ _ hns'
      cases b with
      | none =>
        rw [processChunk_nojson envk jitk start chunk results 200 ra hemp' hns' hr]
        exact countPosts_retryLoopAux envk jitk _ _ _ _
      | some ps =>
        rw [processChunk_eq_success envk jitk start chunk results 200 ra ps hemp' hns' hr]
        rw [countPosts_append]
        have h1 := countPosts_retryLoopAux envk jitk
          (chunk.filter (fun n => islegal n)) (MAX_RETRIES + 1) 0 none
        have h2 : countPosts [Event.pace (1/10)] = 0 := rfl
        rw [retryLoop] at *
        omega

theorem countPace_processChunk (envk : Nat → PostOutcome) (jitk : Nat → ℚ)
    (start : Nat) (chunk : List String) (results : List Int) :
    countPace (processChunk envk jitk start chunk results).1
      = (if chunkPaced envk jitk chunk then 1 else 0) ∧
    (chunkPaced envk jitk chunk = true →
      ∃ es, (processChunk envk jitk start chunk results).1 = es ++ [Event.pace (1/10)]
        ∧ countPace es = 0) := by
  by_cases hemp : (chunk.filter (fun n => islegal n)).isEmpty = true
  · have hpaced : chunkPaced envk jitk chunk = false := by
      simp [chunkPaced, hemp]
    rw [processChunk_eq_empty envk jitk start chunk results hemp, hpaced]
    exact ⟨rfl, by simp⟩
  · have hemp' : (chunk.filter (fun n => islegal n)).isEmpty = false := by simpa using hemp
    by_cases hns : notSuccess (retryLoop envk jitk (chunk.filter (fun n => islegal n))).2.1
        (retryLoop envk jitk (chunk.filter (fun n => islegal n))).2.2 = true
    · have hpaced : chunkPaced envk jitk chunk = false := by
        simp [chunkPaced, hemp', hns]
      rw [processChunk_eq_failure envk jitk start chunk results hemp' hns, hpaced]
      refine ⟨by rw [retryLoop, countPace_retryLoopAux]; simp, by simp⟩
    · have hns' : notSuccess (retryLoop envk jitk (chunk.filter (fun n => islegal n))).2.1
          (retryLoop envk jitk (chunk.filter (fun n => islegal n))).2.2 = false := by
        simpa using hns
      obtain ⟨_, ra, b, hr⟩ := notSuccess_false _ _ hns'
      cases b with
      | none =>
        have hpaced : chunkPaced envk jitk chunk = false := by
          simp [chunkPaced, hemp', hns', hr]
        rw [processChunk_nojson envk jitk start chunk results 200 ra hemp' hns' hr, hpaced]
        refine ⟨by rw [retryLoop, countPace_retryLoopAux]; simp, by simp⟩
      | some ps =>
        have hns2 : notSuccess (retryLoop envk jitk (chunk.filter (fun n => islegal n))).2.1
            (some (PostOutcome.resp 200 ra (some ps))) = false := by
          rw [← hr]; exact hns'
        have hpaced : chunkPaced envk jitk chunk = true := by
          simp [chunkPaced, hemp', hns2, hr]
        rw [processChunk_eq_success envk jitk start chunk results 200 ra ps hemp' hns' hr, hpaced]
        constructor
        · rw [countPace_append, retryLoop, countPace_retryLoopAux,
            countPace_cons_pace, countPace_nil]
          simp
        · intro _
          exact ⟨_, rfl, by rw [retryLoop, countPace_retryLoopAux]⟩


end NameFinder

/-! ## Claim theorems: chunk abandonment and success classification -/

namespace NameFinder

theorem retryLoop_stops (envk : Nat → PostOutcome) (jitk : Nat → ℚ) (lc : List String)
    (j : Nat) (hpre : ∀ m, m < j → retryable (envk m) = true)
    (hstop : retryable (envk j) = false) (hj : j ≤ MAX_RETRIES) :
    countPosts (retryLoop envk jitk lc).1 = j + 1 ∧
    (retryLoop envk jitk lc).2.1 = j ∧
    (retryLoop envk jitk lc).2.2 = some (envk j) := by
  have h := retryLoopAux_stops envk jitk lc j (MAX_RETRIES + 1) 0 none
    (fun m hm => by simpa using hpre m hm) (by simpa using hstop) (by omega) (by omega)
  rw [retryLoop]
  simpa using h

/-- C7: a chunk whose grouped request comes back 400 (after `j` retried
attempts) stops retrying at once: exactly `j + 1` grouped requests are issued,
the chunk's legal names all resolve to `UNKNOWN`, and its illegal names still
resolve to `ILLEGAL`. -/
theorem batch_400_abandons_chunk (envk : Nat → PostOutcome) (jitk : Nat → ℚ)
    (start : Nat) (chunk : List String) (results : List Int) (j : Nat)
    (ra : Option ℚ) (rbody : Option (List String))
    (hlen : start + chunk.length ≤ results.length)
    (hres : ∀ p, p < chunk.length → results.getD (start + p) UNKNOWN = UNKNOWN)
    (hlegal : (chunk.filter (fun n => islegal n)).isEmpty = false)
    (hpre : ∀ m, m < j → retryable (envk m) = true)
    (h400 : envk j = PostOutcome.resp 400 ra rbody)
    (hj : j ≤ MAX_RETRIES) :
    countPosts (processChunk envk jitk start chunk results).1 = j + 1 ∧
    ∃ out, (processChunk envk jitk start chunk results).2 = Except.ok out ∧
      ∀ p, p < chunk.length →
        out[start + p]? = some (if islegal (chunk.getD p "") then UNKNOWN else ILLEGAL) := by
  obtain ⟨hcount, hret, hrF⟩ := retryLoop_stops envk jitk (chunk.filter (fun n => islegal n))
    j hpre (by rw [h400]; rfl) hj
  have hns : notSuccess (retryLoop envk jitk (chunk.filter (fun n => islegal n))).2.1
      (retryLoop envk jitk (chunk.filter (fun n => islegal n))).2.2 = true := by
    rw [hret, hrF, h400]
    simp [notSuccess, statusIs200]
  have heq := processChunk_eq_failure envk jitk start chunk results hlegal hns
  constructor
  · rw [heq]
    exact hcount
  · refine ⟨markUnknown (markIllegal results start chunk) start chunk, by rw [heq], ?_⟩
    intro p hp
    obtain ⟨_, _, cval⟩ := processChunk_ok envk jitk start chunk results _ _ hlen hres heq
    rw [cval p hp]
    by_cases hleg : islegal (chunk.getD p "") = true
    · rw [if_pos hleg, chunkOutcome_failure envk jitk chunk _ hleg hns]
    · have hleg' : islegal (chunk.getD p "") = false := by simpa using hleg
      rw [if_neg (by rw [hleg']; exact Bool.false_ne_true),
        chunkOutcome_illegal envk jitk chunk _ hleg']

theorem batch_400_abandons_chunk_witness :
    countPosts (processChunk (fun _ => PostOutcome.resp 400 none none) (fun _ => 0) 0
      ["ab", "abc"] [-1, -1]).1 = 0 + 1 ∧
    ∃ out, (processChunk (fun _ => PostOutcome.resp 400 none none) (fun _ => 0) 0
      ["ab", "abc"] [-1, -1]).2 = Except.ok out ∧
      ∀ p, p < (["ab", "abc"] : List String).length →
        out[0 + p]? = some (if islegal ((["ab", "abc"] : List String).getD p "")
          then UNKNOWN else ILLEGAL) :=
  batch_400_abandons_chunk (fun _ => PostOutcome.resp 400 none none) (fun _ => 0) 0
    ["ab", "abc"] [-1, -1] 0 none none (by decide) (by decide) (by decide)
    (fun m hm => absurd hm (Nat.not_lt_zero m)) rfl (by decide)

/-- C8: a chunk whose grouped request succeeds classifies each legal name
`UNAVAILABLE` exactly when its lowered form equals the lowered `name` field of
some returned profile, and `AVAIALBLE` otherwise. -/
theorem batch_success_classifies_by_profiles (envk : Nat → PostOutcome) (jitk : Nat → ℚ)
    (start : Nat) (chunk : List String) (results : List Int) (j : Nat)
    (ra : Option ℚ) (ps : List String)
    (hlen : start + chunk.length ≤ results.length)
    (hres : ∀ p, p < chunk.length → results.getD (start + p) UNKNOWN = UNKNOWN)
    (hlegal : (chunk.filter (fun n => islegal n)).isEmpty = false)
    (hpre : ∀ m, m < j → retryable (envk m) = true)
    (h200 : envk j = PostOutcome.resp 200 ra (some ps))
    (hj : j ≤ MAX_RETRIES) :
    ∃ out, (processChunk envk jitk start chunk results).2 = Except.ok out ∧
      ∀ p, p < chunk.length → islegal (chunk.getD p "") = true →
        (out[start + p]? = some UNAVAILABLE ↔
          ∃ q ∈ ps, pylower q = pylower (chunk.getD p "")) ∧
        (out[start + p]? = some UNAVAILABLE ∨ out[start + p]? = some AVAIALBLE) := by
  obtain ⟨hcount, hret, hrF⟩ := retryLoop_stops envk jitk (chunk.filter (fun n => islegal n))
    j hpre (by rw [h200]; rfl) hj
  rw [h200] at hrF
  have hns : notSuccess (retryLoop envk jitk (chunk.filter (fun n => islegal n))).2.1
      (retryLoop envk jitk (chunk.filter (fun n => islegal n))).2.2 = false := by
    rw [hret, hrF]
    simp [notSuccess, statusIs200, Nat.not_lt.mpr hj]
  have heq := processChunk_eq_success envk jitk start chunk results 200 ra ps hlegal hns hrF
  refine ⟨applyProfiles (ps.map pylower) (markIllegal results start chunk) start chunk,
    by rw [heq], ?_⟩
  intro p hp hlegp
  obtain ⟨_, _, cval⟩ := processChunk_ok envk jitk start chunk results _ _ hlen hres heq
  rw [cval p hp, chunkOutcome_success envk jitk chunk _ 200 ra ps hlegp hns hrF]
  have hmemiff : (ps.map pylower).contains (pylower (chunk.getD p "")) = true ↔
      ∃ q ∈ ps, pylower q = pylower (chunk.getD p "") := by
    rw [List.elem_iff, List.mem_map]
  by_cases hc : (ps.map pylower).contains (pylower (chunk.getD p "")) = true
  · rw [if_pos hc]
    exact ⟨⟨fun _ => hmemiff.mp hc, fun _ => rfl⟩, Or.inl rfl⟩
  · rw [if_neg hc]
    refine ⟨⟨fun hEq => absurd hEq (by decide), fun hEx => absurd (hmemiff.mpr hEx) hc⟩,
      Or.inr rfl⟩

theorem batch_success_classifies_by_profiles_witness :
    ∃ out, (processChunk (fun _ => PostOutcome.resp 200 none (some ["ABC"])) (fun _ => 0) 0
      ["abc", "abd"] [-1, -1]).2 = Except.ok out ∧
      ∀ p, p < (["abc", "abd"] : List String).length →
        islegal ((["abc", "abd"] : List String).getD p "") = true →
        (out[0 + p]? = some UNAVAILABLE ↔
          ∃ q ∈ ["ABC"], pylower q = pylower ((["abc", "abd"] : List String).getD p "")) ∧
        (out[0 + p]? = some UNAVAILABLE ∨ out[0 + p]? = some AVAIALBLE) :=
  batch_success_classifies_by_profiles (fun _ => PostOutcome.resp 200 none (some ["ABC"]))
    (fun _ => 0) 0 ["abc", "abd"] [-1, -1] 0 none ["ABC"] (by decide) (by decide) (by decide)
    (fun m hm => absurd hm (Nat.not_lt_zero m)) rfl (by decide)


end NameFinder

/-! ## Claim theorems -/

namespace NameFinder

/-- C1: whenever the batch checker returns a result list, it has exactly one
code per input name, and the code at index `i` is determined by the name at
`i` and its own chunk's retry-loop outcome alone; whenever the concurrent
checker returns a result list (the completion order being any permutation of
the task indices), it likewise has one slot per input name, and slot `i`
holds exactly the code of `isavailable` on the name at `i`. -/
theorem batch_and_threaded_preserve_order_and_length :
    (∀ (env : Nat → Nat → PostOutcome) (jit : Nat → Nat → ℚ) (names : List String)
       (out : List Int),
      (isavailable_batch env jit names).2 = Except.ok out →
      out.length = names.length ∧
      ∀ i, i < names.length → out.getD i UNKNOWN = nameResult env jit names i)
    ∧ (∀ (f : Nat → SingleFetch) (order : List Nat) (names : List String)
         (out : List (Option Int)),
      order.Perm (List.range names.length) →
      isavailable_threaded f order names = Except.ok out →
      out.length = names.length ∧
      ∀ i, i < names.length → ∃ c, isavailable (names.getD i "") (f i) = Except.ok c ∧
        out.getD i none = some c) := by
  constructor
  · exact fun env jit names out h => isavailable_batch_ok env jit names out h
  · intro f order names out hperm h
    obtain ⟨hlen, _, hmem⟩ := threadedCollect_ok f names order _ out h
    refine ⟨by simpa using hlen, fun i hi => ?_⟩
    have hiord : i ∈ order := hperm.mem_iff.mpr (List.mem_range.mpr hi)
    obtain ⟨c, hc, hout⟩ := hmem i hiord
    refine ⟨c, hc, ?_⟩
    have hv := hout (by simpa using hi)
    rw [List.getD_eq_getElem?_getD, hv]
    rfl

/-- C2 (the code violates the claim): each path lets an exception escape —
a transport failure in the single `requests.get` propagates out of
`isavailable` and hence out of `isavailable_threaded` via `future.result()`;
a 404 whose (empty) body does not parse raises inside the debug-log
f-string; and a 200 batch response with an unparseable body raises at
`r.json()` inside `isavailable_batch`. -/
theorem checking_operations_propagate_exceptions :
    isavailable_threaded (fun _ => SingleFetch.transportError) [0] ["abc"]
        = Except.error PyErr.requestException
    ∧ isavailable "abc" (SingleFetch.resp 404 false) = Except.error PyErr.jsonDecodeError
    ∧ (isavailable_batch (fun _ _ => PostOutcome.resp 200 none none) (fun _ _ => 0) ["abc"]).2
        = Except.error PyErr.jsonDecodeError :=
  ⟨rfl, rfl, rfl⟩

/-- C3 counterexample: for the legal name "abc", a transport failure makes
`isavailable` raise `requests.RequestException` instead of returning
`UNKNOWN`, so "any ... transport failure yields Unknown" is false. -/
theorem isavailable_transport_failure_raises :
    islegal "abc" = true
    ∧ isavailable "abc" SingleFetch.transportError ≠ Except.ok UNKNOWN
    ∧ isavailable "abc" SingleFetch.transportError = Except.error PyErr.requestException :=
  ⟨by decide, fun h => Except.noConfusion h, rfl⟩

/-- C3 as amended: for every legal name, given an HTTP response (status 429,
or any status whose body the debug-log `response.json()` call can parse),
the single checker maps 200 ↦ `UNAVAILABLE`, 404 ↦ `AVAIALBLE`,
402 ↦ `AVAIALBLE`, and every other status (429 included) ↦ `UNKNOWN`;
transport failures raise instead of yielding `UNKNOWN`. -/
theorem isavailable_status_mapping (name : String) (status : Nat) (jsonOk : Bool)
    (hleg : islegal name = true) (hjson : status = 429 ∨ jsonOk = true) :
    isavailable name (SingleFetch.resp status jsonOk) =
      Except.ok (if status = 200 then UNAVAILABLE
        else if status = 404 then AVAIALBLE
        else if status = 402 then AVAIALBLE
        else UNKNOWN) := by
  unfold isavailable
  rw [hleg]
  have hcond : (status != 429 && !jsonOk) = false := by
    rcases hjson with h | h
    · subst h; simp
    · subst h; simp
  simp only [Bool.not_true, Bool.false_eq_true, if_false, hcond]
  split <;> simp_all

theorem isavailable_status_mapping_witness :
    isavailable "abc" (SingleFetch.resp 200 true) = Except.ok UNAVAILABLE :=
  isavailable_status_mapping "abc" 200 true (by decide) (Or.inr rfl)

/-- C4: `islegal name` holds exactly when every character of the case-folded
name lies in the alphabet a-z, 0-9, _ and the name's length lies in [3, 16];
together with the five concrete examples the spec lists. -/
theorem islegal_characterization :
    (∀ name : String, islegal name = true ↔
      ((∀ c ∈ (pylower name).toList,
          ('a' ≤ c ∧ c ≤ 'z') ∨ ('0' ≤ c ∧ c ≤ '9') ∨ c = '_')
        ∧ 3 ≤ name.length ∧ name.length ≤ 16))
    ∧ islegal "ab" = false
    ∧ islegal "abc" = true
    ∧ islegal "aaaaaaaaaaaaaaaaa" = false
    ∧ islegal "Valid_Name1" = true
    ∧ islegal "bad!name" = false :=
  ⟨islegal_iff_aux, by decide, by decide, by decide, by decide, by decide⟩

/-- C5: an illegal name is classified `ILLEGAL` by the single checker no
matter what the network would have answered (no network effect is
reachable); every grouped POST body of a batch run carries only legal names;
and in any returned batch result an illegal input position holds `ILLEGAL`. -/
theorem illegal_names_classified_without_network :
    (∀ (name : String) (fetch : SingleFetch), islegal name = false →
      isavailable name fetch = Except.ok ILLEGAL)
    ∧ (∀ (env : Nat → Nat → PostOutcome) (jit : Nat → Nat → ℚ) (names : List String)
         (body : List String),
      Event.post body ∈ (isavailable_batch env jit names).1 →
      ∀ n ∈ body, islegal n = true)
    ∧ (∀ (env : Nat → Nat → PostOutcome) (jit : Nat → Nat → ℚ) (names : List String)
         (out : List Int),
      (isavailable_batch env jit names).2 = Except.ok out →
      ∀ i, i < names.length → islegal (names.getD i "") = false →
        out.getD i UNKNOWN = ILLEGAL) := by
  refine ⟨?_, ?_, ?_⟩
  · intro name fetch h
    simp [isavailable, h]
  · intro env jit names body hmem n hn
    obtain ⟨chunk, rfl⟩ := post_body_batchLoopAux env jit names.length 0 0 names
      (List.replicate names.length UNKNOWN) body hmem
    exact List.of_mem_filter hn
  · intro env jit names out h i hi hleg
    obtain ⟨_, val⟩ := isavailable_batch_ok env jit names out h
    rw [val i hi]
    exact chunkOutcome_illegal _ _ _ _ hleg

/-- C6 counterexample: with every attempt answered 429 (no Retry-After), the
batch checker issues 6 grouped requests for a one-name chunk — `while retries
<= MAX_RETRIES` runs the body at `retries = 0, …, 5` — refuting "at most 5
grouped requests". -/
theorem batch_six_requests_under_throttling :
    countPosts ((isavailable_batch (fun _ _ => PostOutcome.resp 429 none none)
      (fun _ _ => 0) ["abc"]).1) = 6
    ∧ ¬ (countPosts ((isavailable_batch (fun _ _ => PostOutcome.resp 429 none none)
      (fun _ _ => 0) ["abc"]).1) ≤ 5) := by
  constructor
  · decide
  · decide

/-- C6 as amended: the retry loop of a chunk is bounded at `MAX_RETRIES + 1 =
6` attempts — at most 6 grouped requests are issued per chunk before it gives
up — and the loop always terminates (it is a total function of the response
oracle; the counterexample shows the bound 6 is attained). -/
theorem batch_retry_attempts_bounded :
    ∀ (envk : Nat → PostOutcome) (jitk : Nat → ℚ) (start : Nat) (chunk : List String)
      (results : List Int),
    countPosts (processChunk envk jitk start chunk results).1 ≤ MAX_RETRIES + 1 :=
  fun envk jitk start chunk results => countPosts_processChunk envk jitk start chunk results

/-- C9 counterexample: eleven legal names form two chunks; with both grouped
requests answered 400, the full event trace is just the two POSTs — no
pacing sleep separates the first (failed) chunk from the second, refuting
"after each chunk, success or not, pause 0.1s". -/
theorem no_pace_after_failed_chunk :
    (List.replicate 11 "abc").length = 11
    ∧ (isavailable_batch (fun _ _ => PostOutcome.resp 400 none none) (fun _ _ => 0)
        (List.replicate 11 "abc")).1
      = [Event.post (List.replicate 10 "abc"), Event.post ["abc"]]
    ∧ countPace ((isavailable_batch (fun _ _ => PostOutcome.resp 400 none none) (fun _ _ => 0)
        (List.replicate 11 "abc")).1) = 0 := by
  refine ⟨by decide, by decide, by decide⟩

/-- C9 as amended: the 0.1-second pacing sleep follows exactly the chunks
whose grouped request succeeded with a parsed payload; a chunk that fails,
is abandoned, or contains no legal name emits no pacing sleep, and when the
sleep occurs it is the final event of the chunk with duration 1/10 s. -/
theorem pacing_sleep_only_after_successful_chunk :
    ∀ (envk : Nat → PostOutcome) (jitk : Nat → ℚ) (start : Nat) (chunk : List String)
      (results : List Int),
    countPace (processChunk envk jitk start chunk results).1
      = (if chunkPaced envk jitk chunk then 1 else 0)
    ∧ (chunkPaced envk jitk chunk = true →
      ∃ es, (processChunk envk jitk start chunk results).1 = es ++ [Event.pace (1/10)]
        ∧ countPace es = 0) :=
  fun envk jitk start chunk results => countPace_processChunk envk jitk start chunk results

/-- C10: whenever the batch checker returns a result list, every entry is one
of the four codes (no position is left without a code), and a position whose
name is illegal holds `ILLEGAL` — the illegal mark is never overwritten by
the retry-exhaustion or success-processing steps. -/
theorem batch_results_code_invariant (env : Nat → Nat → PostOutcome)
    (jit : Nat → Nat → ℚ) (names : List String) (out : List Int)
    (h : (isavailable_batch env jit names).2 = Except.ok out) :
    out.length = names.length ∧
    ∀ i, i < names.length →
      ((out.getD i UNKNOWN = AVAIALBLE ∨ out.getD i UNKNOWN = UNAVAILABLE ∨
        out.getD i UNKNOWN = UNKNOWN ∨ out.getD i UNKNOWN = ILLEGAL) ∧
       (islegal (names.getD i "") = false → out.getD i UNKNOWN = ILLEGAL)) := by
  obtain ⟨hlen, val⟩ := isavailable_batch_ok env jit names out h
  refine ⟨hlen, fun i hi => ?_⟩
  rw [val i hi]
  exact ⟨chunkOutcome_mem _ _ _ _, fun hleg => chunkOutcome_illegal _ _ _ _ hleg⟩

theorem batch_results_code_invariant_witness :
    ([1, -2] : List Int).length = (["abc", "a!"] : List String).length ∧
    ∀ i, i < (["abc", "a!"] : List String).length →
      ((([1, -2] : List Int).getD i UNKNOWN = AVAIALBLE ∨
        ([1, -2] : List Int).getD i UNKNOWN = UNAVAILABLE ∨
        ([1, -2] : List Int).getD i UNKNOWN = UNKNOWN ∨
        ([1, -2] : List Int).getD i UNKNOWN = ILLEGAL) ∧
       (islegal ((["abc", "a!"] : List String).getD i "") = false →
        ([1, -2] : List Int).getD i UNKNOWN = ILLEGAL)) :=
  batch_results_code_invariant (fun _ _ => PostOutcome.resp 200 none (some []))
    (fun _ _ => 0) ["abc", "a!"] [1, -2] (by rfl)


end NameFinder
